import Mathlib

/-!
Verification development for the tui-cam frame pipeline.

This file gives a shallow embedding of the core of the repository:

* the CPU image effects (src/pipeline/effects.ts),
* the CPU shader pipeline (src/pipeline/shader-pipeline.ts,
  class CpuShaderPipeline),
* the ffmpeg byte-stream demuxer (src/camera/ffmpeg-camera.ts,
  class FfmpegCamera),
* the per-tick frame scheduler (src/index.ts, the setFrameCallback body).

JavaScript numbers are modelled as rationals; byte stores into a
Uint8ClampedArray are modelled by clamp8 below, which performs the
clamp-and-round-ties-to-even conversion specified for that array type.
Pixel buffers are lists of natural numbers (one entry per byte).
-/

/-- Frame record from src/camera/types.ts: width, height, RGBA byte
buffer, capture timestamp. -/
structure Frame where
  width : Nat
  height : Nat
  data : List Nat
  timestamp : Rat
  deriving DecidableEq, Repr

/-- Reading byte i of a buffer; out-of-range reads are not exercised by
the source loops, 0 is used as the default. -/
def byteAt (d : List Nat) (i : Nat) : Nat :=
  d.getD i 0

/-- Builds a buffer of n bytes whose entry at index i is f i.  Used to
render source loops that write every index of a freshly allocated
output buffer exactly once. -/
def buildBuf (n : Nat) (f : Nat → Nat) : List Nat :=
  (List.range n).map f

/-- Builds a buffer of n rationals (models a Float32Array being filled
by a loop writing each index once). -/
def buildBufQ (n : Nat) (f : Nat → Rat) : List Rat :=
  (List.range n).map f

/-- Rounding to the nearest integer with ties to even, the rounding mode
used when a JavaScript number is stored into a Uint8ClampedArray. -/
def roundTiesEven (q : Rat) : Int :=
  let f : Int := ⌊q⌋
  let r : Rat := q - f
  if r < 1/2 then f
  else if 1/2 < r then f + 1
  else if 2 ∣ f then f else f + 1

/-- Conversion applied by a store into a Uint8ClampedArray: clamp to
[0, 255], rounding ties to even. -/
def clamp8 (q : Rat) : Nat :=
  if q ≤ 0 then 0
  else if 255 ≤ q then 255
  else (roundTiesEven q).toNat

/-- JavaScript Math.round: floor of x + 1/2 (ties away from minus
infinity). -/
def jsRound (q : Rat) : Int :=
  ⌊q + 1/2⌋

/-- Floor of the base-2 logarithm of a positive rational, computed from
its numerator and denominator; valid for values of magnitude at least
2 ^ (-200), which covers every value arising in this program. -/
def floorLog2Q (q : Rat) : Int :=
  (Nat.log 2 (q.num.toNat * 2 ^ 200 / q.den) : Int) - 200

/-- Rounding of an exact (rational) value to the nearest IEEE-754
binary64 double, ties to even: the significand is rounded to 53 bits at
the exponent of the value.  Faithful for the normal range; the
luminance computation of cpuThreshold never leaves it (no overflow, no
subnormals).  Used to model the arithmetic JavaScript performs on
numbers. -/
def fl64 (q : Rat) : Rat :=
  if q = 0 then 0
  else
    let p := |q|
    let e := floorLog2Q p
    let ulp : Rat := (2 : Rat) ^ (e - 52)
    (if q < 0 then -1 else 1) * ((roundTiesEven (p / ulp) : Rat) * ulp)

/-- Model of Math.sqrt on a nonnegative rational: the integer square
root of num * den, divided by den.  The exact value of the square root
is not relied on by any theorem below (only the surrounding min with
255 and the write pattern of the edges kernel are). -/
def ratSqrt (q : Rat) : Rat :=
  (Nat.sqrt (q.num.toNat * q.den) : Rat) / (q.den : Rat)

/-- Effect enum from src/pipeline/effects.ts. -/
inductive EffectName where
  | none | edges | posterize | contrast | invert | threshold
  deriving DecidableEq, Repr

/-- cpuNone from effects.ts: returns the frame unchanged. -/
def cpuNone (frame : Frame) : Frame :=
  frame

/-- cpuInvert from effects.ts: per 4-byte pixel, channels become
255 - value and the alpha byte is copied. -/
def cpuInvert (frame : Frame) : Frame :=
  { width := frame.width, height := frame.height,
    data := buildBuf frame.data.length fun i =>
      if i % 4 = 3 then clamp8 (byteAt frame.data i : Rat)
      else clamp8 (255 - (byteAt frame.data i : Rat)),
    timestamp := frame.timestamp }

/-- cpuThreshold from effects.ts: luminance of the pixel holding byte i
is 0.299 R + 0.587 G + 0.114 B evaluated in IEEE-754 binary64
arithmetic, as JavaScript does: the literals 0.299, 0.587 and 0.114
denote the nearest doubles of those decimals (fl64 of the exact
rationals), the byte values are exact as doubles, and every product and
left-associated addition is rounded by fl64.  Channels become 255 when
the computed luminance is at least the cutoff, otherwise 0; the alpha
byte is copied. -/
def cpuThreshold (frame : Frame) (cutoff : Rat) : Frame :=
  { width := frame.width, height := frame.height,
    data := buildBuf frame.data.length fun i =>
      let b := 4 * (i / 4)
      let lum : Rat :=
        fl64 (fl64 (fl64 (fl64 (0.299 : Rat) * (byteAt frame.data b : Rat))
            + fl64 (fl64 (0.587 : Rat) * (byteAt frame.data (b + 1) : Rat)))
          + fl64 (fl64 (0.114 : Rat) * (byteAt frame.data (b + 2) : Rat)))
      if i % 4 = 3 then clamp8 (byteAt frame.data i : Rat)
      else clamp8 (if cutoff ≤ lum then 255 else 0),
    timestamp := frame.timestamp }

/-- cpuPosterize from effects.ts: step = 255 / (levels - 1); channels
become round(round(v / step) * step); the alpha byte is copied. -/
def cpuPosterize (frame : Frame) (levels : Nat) : Frame :=
  { width := frame.width, height := frame.height,
    data := buildBuf frame.data.length fun i =>
      let step : Rat := 255 / ((levels : Rat) - 1)
      if i % 4 = 3 then clamp8 (byteAt frame.data i : Rat)
      else clamp8 ((jsRound ((jsRound ((byteAt frame.data i : Rat) / step) : Rat) * step) : Rat)),
    timestamp := frame.timestamp }

/-- cpuContrast from effects.ts: offset = (0.5 - 0.5 * amount) * 255;
channels become min 255 (max 0 (v * amount + offset)); alpha copied. -/
def cpuContrast (frame : Frame) (amount : Rat) : Frame :=
  { width := frame.width, height := frame.height,
    data := buildBuf frame.data.length fun i =>
      let offset : Rat := ((1/2 : Rat) - (1/2 : Rat) * amount) * 255
      if i % 4 = 3 then clamp8 (byteAt frame.data i : Rat)
      else clamp8 (min 255 (max 0 ((byteAt frame.data i : Rat) * amount + offset))),
    timestamp := frame.timestamp }

/-- Luminance plane computed by cpuEdges before the Sobel pass:
entry p is 0.299 R + 0.587 G + 0.114 B of pixel p. -/
def edgeLum (d : List Nat) (n : Nat) : List Rat :=
  buildBufQ n fun i =>
    (0.299 : Rat) * byteAt d (i * 4)
      + (0.587 : Rat) * byteAt d (i * 4 + 1)
      + (0.114 : Rat) * byteAt d (i * 4 + 2)

/-- Sobel magnitude computed by cpuEdges at interior pixel (x, y):
the two 3x3 Sobel gradients over the luminance plane, combined as
min 255 (sqrt (gx^2 + gy^2)). -/
def sobelMag (d : List Nat) (w h x y : Nat) : Rat :=
  let lum := edgeLum d (w * h)
  let at_ := fun i => lum.getD i 0
  let tl := at_ ((y - 1) * w + (x - 1))
  let tc := at_ ((y - 1) * w + x)
  let tr := at_ ((y - 1) * w + (x + 1))
  let ml := at_ (y * w + (x - 1))
  let mr := at_ (y * w + (x + 1))
  let bl := at_ ((y + 1) * w + (x - 1))
  let bc := at_ ((y + 1) * w + x)
  let br := at_ ((y + 1) * w + (x + 1))
  let gx := -tl - 2 * ml - bl + tr + 2 * mr + br
  let gy := -tl - 2 * tc - tr + bl + 2 * bc + br
  min 255 (ratSqrt (gx * gx + gy * gy))

/-- Interior-pixel predicate of the Sobel loops in cpuEdges: the loops
run y from 1 while y < height - 1 and x from 1 while x < width - 1;
over the integers that is 1 <= x, x + 1 < width, 1 <= y, y + 1 < height. -/
def edgeInterior (w h x y : Nat) : Prop :=
  1 ≤ x ∧ x + 1 < w ∧ 1 ≤ y ∧ y + 1 < h

instance (w h x y : Nat) : Decidable (edgeInterior w h x y) := by
  unfold edgeInterior; infer_instance

/-- cpuEdges from effects.ts: the output buffer is zero-filled, then for
every interior pixel the Sobel magnitude is written to R, G, B and 255
to alpha.  Rendered pointwise: byte i belongs to pixel p = i / 4 at
column x = p mod width and row y = p / width; it receives the Sobel
write exactly when (x, y) is interior, and stays 0 otherwise. -/
def cpuEdges (frame : Frame) : Frame :=
  { width := frame.width, height := frame.height,
    data := buildBuf frame.data.length fun i =>
      let p := i / 4
      let c := i % 4
      let x := p % frame.width
      let y := p / frame.width
      if edgeInterior frame.width frame.height x y then
        if c = 3 then 255
        else clamp8 (sobelMag frame.data frame.width frame.height x y)
      else 0,
    timestamp := frame.timestamp }

/-- Byte index read by cpuMirror to produce byte i of its output: the
whole 4-byte pixel at column x is taken from column width - 1 - x of the
same row, channel offset preserved (the source copies pixels through a
Uint32Array view, one 32-bit unit per RGBA pixel). -/
def mirrorIdx (w : Nat) (i : Nat) : Nat :=
  let p := i / 4
  let c := i % 4
  let x := p % w
  let y := p / w
  (y * w + (w - 1 - x)) * 4 + c

/-- cpuMirror from effects.ts: horizontal flip performed row by row as
whole-pixel copies through 32-bit views (dst32[row + x] =
src32[row + (width - 1 - x)]); positions beyond width * height pixels
keep the zero fill of the fresh output allocation. -/
def cpuMirror (frame : Frame) : Frame :=
  { width := frame.width, height := frame.height,
    data := buildBuf frame.data.length fun i =>
      if i / 4 < frame.width * frame.height then
        byteAt frame.data (mirrorIdx frame.width i)
      else 0,
    timestamp := frame.timestamp }

/-- CPU_EFFECTS record from effects.ts, with the default parameters the
record supplies (cutoff 128, levels 4, amount 1.5). -/
def CPU_EFFECTS (e : EffectName) (frame : Frame) : Frame :=
  match e with
  | .none => cpuNone frame
  | .edges => cpuEdges frame
  | .posterize => cpuPosterize frame 4
  | .contrast => cpuContrast frame (3/2)
  | .invert => cpuInvert frame
  | .threshold => cpuThreshold frame 128

/-- ProcessedFrame record from shader-pipeline.ts: luminance field,
pass-through color buffer, output dimensions. -/
structure ProcessedFrame where
  luminance : List Rat
  color : Option (List Nat)
  width : Nat
  height : Nat
  deriving DecidableEq, Repr

/-- CpuShaderPipeline instance state: the output dimensions fixed at
construction.  The pre-allocated scratch buffers (luminanceBuf,
mirrorBuf, effectBuf, edgeLumBuf) are an allocation-reuse device with
no observable effect on output values, so they have no counterpart in
this pure model. -/
structure CpuShaderPipeline where
  outWidth : Nat
  outHeight : Nat
  deriving DecidableEq, Repr

/-- Fast path of the luminance extraction in
CpuShaderPipeline.processFrame (taken when source and output dimensions
match): a flat loop over p with byte index i = 4 p, computing
(0.299 R + 0.587 G + 0.114 B) / 255. -/
def fastPathLuminance (d : List Nat) (outW outH : Nat) : List Rat :=
  let rC : Rat := (0.299 : Rat) / 255
  let gC : Rat := (0.587 : Rat) / 255
  let bC : Rat := (0.114 : Rat) / 255
  buildBufQ (outW * outH) fun p =>
    let i := 4 * p
    rC * byteAt d i + gC * byteAt d (i + 1) + bC * byteAt d (i + 2)

/-- Downscale path of the luminance extraction in
CpuShaderPipeline.processFrame: nearest-neighbour mapping srcX =
min (floor (x * srcW / outW)) (srcW - 1), likewise for y, then the same
Rec. 601 weighted sum over the source pixel bytes.  The nested loops
write index y * outW + x once each; entry j decomposes as y = j / outW,
x = j mod outW. -/
def downscaleLuminance (d : List Nat) (srcW srcH outW outH : Nat) : List Rat :=
  let rC : Rat := (0.299 : Rat) / 255
  let gC : Rat := (0.587 : Rat) / 255
  let bC : Rat := (0.114 : Rat) / 255
  let scaleX : Rat := (srcW : Rat) / (outW : Rat)
  let scaleY : Rat := (srcH : Rat) / (outH : Rat)
  buildBufQ (outW * outH) fun j =>
    let y := j / outW
    let x := j % outW
    let srcY := min (⌊(y : Rat) * scaleY⌋.toNat) (srcH - 1)
    let srcX := min (⌊(x : Rat) * scaleX⌋.toNat) (srcW - 1)
    let i := (srcY * srcW + srcX) * 4
    rC * byteAt d i + gC * byteAt d (i + 1) + bC * byteAt d (i + 2)

/-- Luminance extraction step of CpuShaderPipeline.processFrame: the
1:1 fast path when the processed frame already has the output
dimensions, the nearest-neighbour downscale path otherwise. -/
def extractLuminance (pl : CpuShaderPipeline) (f : Frame) : List Rat :=
  if f.width = pl.outWidth ∧ f.height = pl.outHeight then
    fastPathLuminance f.data pl.outWidth pl.outHeight
  else
    downscaleLuminance f.data f.width f.height pl.outWidth pl.outHeight

/-- CpuShaderPipeline.processFrame from shader-pipeline.ts: optional
mirror first, then the effect switch (none skips the switch; threshold,
posterize and contrast receive 128, 4 and 1.5), then luminance
extraction; the transformed RGBA bytes are passed through as color. -/
def CpuShaderPipeline.processFrame (pl : CpuShaderPipeline) (frame : Frame)
    (effect : EffectName) (mirror : Bool) : ProcessedFrame :=
  let processed := if mirror then cpuMirror frame else frame
  let processed2 :=
    match effect with
    | .none => processed
    | .edges => cpuEdges processed
    | .invert => cpuInvert processed
    | .threshold => cpuThreshold processed 128
    | .posterize => cpuPosterize processed 4
    | .contrast => cpuContrast processed (3/2)
  { luminance := extractLuminance pl processed2,
    color := some processed2.data,
    width := pl.outWidth,
    height := pl.outHeight }

/-- Ghost record of one publish performed by the demuxer loop
(the assignment this.frame = { ... } in FfmpegCamera.readFrames):
target is true when the frame was written into frameBufA, and snapA and
snapB are the contents of the two fixed buffers at the instant of the
publish. -/
structure PubEntry where
  target : Bool
  snapA : List Nat
  snapB : List Nat
  deriving DecidableEq, Repr

/-- Pixel data of a published frame: the contents, at publish time, of
the buffer the frame points at. -/
def entryContent (e : PubEntry) : List Nat :=
  if e.target then e.snapA else e.snapB

/-- Snapshot a publish entry holds of a given buffer (true selects
frameBufA). -/
def snapOf (e : PubEntry) (t : Bool) : List Nat :=
  if t then e.snapA else e.snapB

/-- State of the FfmpegCamera.readFrames loop together with the object
fields it touches: the two fixed frame buffers, the useA flag, the
pending bytes of the accumulation buffer (the first offset bytes; the
unobservable spare capacity of the growable Uint8Array is not
modelled), the latest published frame, and the ghost publish log. -/
structure DemuxState where
  bufA : List Nat
  bufB : List Nat
  useA : Bool
  acc : List Nat
  latest : Option PubEntry
  published : List PubEntry
  deriving DecidableEq, Repr

/-- Current contents of one of the two fixed buffers (true selects
frameBufA). -/
def bufOf (st : DemuxState) (t : Bool) : List Nat :=
  if t then st.bufA else st.bufB

/-- Inner while-loop of FfmpegCamera.readFrames (while offset >=
frameSize): pick the buffer selected by useA, toggle useA, copy the
first frameSize accumulated bytes into it, publish the frame, drop
those bytes from the accumulation buffer, repeat.  The loop consumes at
least frameSize >= 1 bytes per iteration, so a fuel of the accumulated
byte count bounds the iteration count; feedChunk below always supplies
enough.  demuxStep is the loop body, extractLoop the while loop. -/
def demuxStep (fs : Nat) (st : DemuxState) : DemuxState :=
  let frameData := st.acc.take fs
  let target := st.useA
  let bufA2 := if target then frameData else st.bufA
  let bufB2 := if target then st.bufB else frameData
  let e : PubEntry := { target := target, snapA := bufA2, snapB := bufB2 }
  { bufA := bufA2, bufB := bufB2, useA := !st.useA,
    acc := st.acc.drop fs, latest := some e,
    published := st.published ++ [e] }

def extractLoop (fs : Nat) : Nat → DemuxState → DemuxState
  | 0, st => st
  | fuel + 1, st =>
    if 0 < fs ∧ fs ≤ st.acc.length then extractLoop fs fuel (demuxStep fs st)
    else st

/-- One iteration of the outer read loop of FfmpegCamera.readFrames for
a received chunk: append the chunk to the accumulation buffer (the
growth step only adjusts unobservable capacity) and run the extraction
loop. -/
def feedChunk (fs : Nat) (st : DemuxState) (chunk : List Nat) : DemuxState :=
  let st1 : DemuxState := { st with acc := st.acc ++ chunk }
  extractLoop fs st1.acc.length st1

/-- Feeding a sequence of chunks to the demuxer loop in order. -/
def feedChunks (fs : Nat) (st : DemuxState) (cs : List (List Nat)) : DemuxState :=
  cs.foldl (feedChunk fs) st

/-- Demuxer state on entry to readFrames: both fixed buffers are fresh
zeroed allocations of one frame size (FfmpegCamera constructor), useA
is true, no bytes are accumulated, nothing is published. -/
def initDemux (fs : Nat) : DemuxState :=
  { bufA := List.replicate fs 0, bufB := List.replicate fs 0,
    useA := true, acc := [], latest := none, published := [] }

/-- FfmpegCamera object state relevant to start, readFrames, getFrame
and isRunning: the running flag, the readerDone flag, and the state
shared with the read loop. -/
structure CamState where
  running : Bool
  readerDone : Bool
  dmx : DemuxState
  deriving DecidableEq, Repr

/-- FfmpegCamera.getFrame: returns the last published frame, or none
when no frame has been decoded yet. -/
def getFrame (st : CamState) : Option PubEntry :=
  st.dmx.latest

/-- FfmpegCamera.isRunning: running and the read loop has not exited. -/
def isRunning (st : CamState) : Bool :=
  st.running && !st.readerDone

/-- How the byte stream of the capture subprocess terminates: a clean
end of stream (reader.read() reports done) or a stream error
(reader.read() throws). -/
inductive StreamEnd where
  | eof
  | errored
  deriving DecidableEq, Repr

/-- Try-block of FfmpegCamera.readFrames: while running, read the next
chunk and feed it to the accumulate-and-extract step; a done result
breaks the loop; a stream error is an exception thrown out of the loop
body (the returned flag records that the catch block was reached). -/
def readBody (fs : Nat) (st : CamState) :
    List (List Nat) → StreamEnd → CamState × Bool
  | [], ending =>
    if st.running then
      match ending with
      | .eof => (st, false)
      | .errored => (st, true)
    else (st, false)
  | c :: cs, ending =>
    if st.running then
      readBody fs { st with dmx := feedChunk fs st.dmx c } cs ending
    else (st, false)

/-- FfmpegCamera.readFrames over a finite event stream: the try-block
runs, any stream exception is swallowed by the empty catch block, and
the finally block sets readerDone. -/
def readFrames (fs : Nat) (st : CamState) (chunks : List (List Nat))
    (ending : StreamEnd) : CamState :=
  let r := readBody fs st chunks ending
  { r.1 with readerDone := true }

/-- Startup error raised when spawning the capture subprocess fails
(for example, no capture device is available to attach to). -/
abbrev StartupError := String

/-- FfmpegCamera.start: spawn the ffmpeg subprocess, then set running
and clear readerDone and kick off the reader loops.  Bun.spawn either
yields a process handle or throws; start has no exception handler, so a
spawn failure propagates to the caller (the promise returned by start
rejects). -/
def start (st : CamState) (spawn : Except StartupError Nat) :
    Except StartupError CamState :=
  match spawn with
  | .error e => .error e
  | .ok _proc => .ok { st with running := true, readerDone := false }

/-- Mutable state read and written by the frame callback installed in
main (src/index.ts): the single-flight processing guard, the pause
flag, the timestamp of the last processed frame, and the FPS
accounting variables. -/
structure SchedState where
  processing : Bool
  paused : Bool
  lastFrameTimestamp : Rat
  frameCount : Nat
  lastFpsTime : Rat
  currentFps : Nat
  lastFrameTime : Rat
  deriving DecidableEq, Repr

/-- What a single tick of the frame callback did: whether
camera.getFrame was consulted, whether pipeline.processFrame was
invoked, and whether the tick body threw (an exception from the
Transform Stage, propagating after the finally block ran). -/
structure TickReport where
  fetched : Bool
  invoked : Bool
  raised : Bool
  deriving DecidableEq, Repr

/-- Try-block of the frame callback: paused ticks publish status only;
a missing frame or a frame with an unchanged timestamp is a no-op tick;
otherwise the frame is run through the pipeline (which may throw) and
the FPS accounting is updated.  nowStart and nowEnd model the two
performance.now() readings around the pipeline call. -/
def tickBody (st : SchedState) (frame? : Option Frame)
    (transform : Frame → Except Unit ProcessedFrame)
    (nowStart nowEnd : Rat) : SchedState × TickReport :=
  if st.paused then
    (st, { fetched := false, invoked := false, raised := false })
  else
    match frame? with
    | none => (st, { fetched := true, invoked := false, raised := false })
    | some f =>
      if f.timestamp = st.lastFrameTimestamp then
        (st, { fetched := true, invoked := false, raised := false })
      else
        let st1 := { st with lastFrameTimestamp := f.timestamp }
        match transform f with
        | .error _ =>
          (st1, { fetched := true, invoked := true, raised := true })
        | .ok _p =>
          let fc := st1.frameCount + 1
          let lft := nowEnd - nowStart
          let st2 :=
            if 1000 ≤ nowEnd - st1.lastFpsTime then
              { st1 with
                frameCount := 0
                currentFps := fc
                lastFpsTime := nowEnd
                lastFrameTime := lft }
            else
              { st1 with frameCount := fc, lastFrameTime := lft }
          (st2, { fetched := true, invoked := true, raised := false })

/-- Frame callback installed by app.renderer.setFrameCallback in main:
if the processing guard is set the tick returns at once; otherwise the
guard is taken, the body runs, and the finally block clears the guard
on every exit path, including when the pipeline throws. -/
def tick (st : SchedState) (frame? : Option Frame)
    (transform : Frame → Except Unit ProcessedFrame)
    (nowStart nowEnd : Rat) : SchedState × TickReport :=
  if st.processing then
    (st, { fetched := false, invoked := false, raised := false })
  else
    let st1 := { st with processing := true }
    let r := tickBody st1 frame? transform nowStart nowEnd
    ({ r.1 with processing := false }, r.2)

/-- Fuel-indexed greedy splitting of a byte list into frame-size
blocks, mirroring one run of the extraction loop; used to state what
the demuxer publishes. -/
def blocksF (fs : Nat) : Nat → List Nat → List (List Nat)
  | 0, _ => []
  | fuel + 1, l =>
    if 0 < fs ∧ fs ≤ l.length then l.take fs :: blocksF fs fuel (l.drop fs)
    else []

/-- Fuel-indexed remainder left over by greedy block extraction. -/
def remF (fs : Nat) : Nat → List Nat → List Nat
  | 0, l => l
  | fuel + 1, l =>
    if 0 < fs ∧ fs ≤ l.length then remF fs fuel (l.drop fs)
    else l

/-- Greedy decomposition of a byte list into frame-size blocks. -/
def blocks (fs : Nat) (l : List Nat) : List (List Nat) :=
  blocksF fs l.length l

/-- Remainder of the greedy block decomposition. -/
def rem (fs : Nat) (l : List Nat) : List Nat :=
  remF fs l.length l

/-- Pixel contents of the frames a demuxer state has published, oldest
first. -/
def pubContents (st : DemuxState) : List (List Nat) :=
  st.published.map entryContent

/-- Invariant of the demuxer loop tying the useA flag, the publish
targets and the buffer snapshots together: useA tracks the parity of
the publish count, publish k went to buffer A exactly when k is even,
the buffer backing the most recent publish still holds its snapshot,
and each publish left the snapshot of its predecessor intact. -/
def DemuxInv (st : DemuxState) : Prop :=
  st.useA = decide (st.published.length % 2 = 0) ∧
  (∀ k, (hk : k < st.published.length) →
    (st.published.get ⟨k, hk⟩).target = decide (k % 2 = 0)) ∧
  (∀ _hne : 0 < st.published.length,
    bufOf st ((st.published.get
        ⟨st.published.length - 1, by omega⟩).target)
      = snapOf (st.published.get ⟨st.published.length - 1, by omega⟩)
          ((st.published.get ⟨st.published.length - 1, by omega⟩).target)) ∧
  (∀ k, (hk : k + 1 < st.published.length) →
    snapOf (st.published.get ⟨k + 1, hk⟩)
        ((st.published.get ⟨k, Nat.lt_of_succ_lt hk⟩).target)
      = snapOf (st.published.get ⟨k, Nat.lt_of_succ_lt hk⟩)
          ((st.published.get ⟨k, Nat.lt_of_succ_lt hk⟩).target))

/-- A Transform Stage stand-in that always throws, used to exercise the
error path of the frame callback. -/
def errTransform : Frame → Except Unit ProcessedFrame :=
  fun _ => Except.error ()

/-! ### Basic lemmas about the buffer-building helpers -/

theorem buildBuf_length (n : Nat) (f : Nat → Nat) : (buildBuf n f).length = n := by
  simp [buildBuf]

theorem buildBufQ_length (n : Nat) (f : Nat → Rat) : (buildBufQ n f).length = n := by
  simp [buildBufQ]

theorem byteAt_buildBuf {n i : Nat} (f : Nat → Nat) (h : i < n) :
    byteAt (buildBuf n f) i = f i := by
  simp [byteAt, buildBuf, List.getD, List.getElem?_map, List.getElem?_range, h]

theorem byteAt_buildBuf_ge {n i : Nat} (f : Nat → Nat) (h : n ≤ i) :
    byteAt (buildBuf n f) i = 0 := by
  have hnone : (List.range n)[i]? = none := by
    simp [List.getElem?_range]
    omega
  simp [byteAt, buildBuf, List.getD, hnone]

theorem getD_buildBufQ {n i : Nat} (f : Nat → Rat) (h : i < n) :
    (buildBufQ n f).getD i 0 = f i := by
  simp [buildBufQ, List.getD, List.getElem?_map, List.getElem?_range, h]

theorem roundTiesEven_intCast (z : Int) : roundTiesEven (z : Rat) = z := by
  simp [roundTiesEven]

/-- Storing a value that is already a byte into a Uint8ClampedArray
leaves it unchanged. -/
theorem clamp8_byte {b : Nat} (h : b ≤ 255) : clamp8 (b : Rat) = b := by
  unfold clamp8
  rcases Nat.eq_zero_or_pos b with hb | hb
  · subst hb; simp
  · rw [if_neg]
    · by_cases h255 : (255 : Rat) ≤ (b : Rat)
      · have hb255 : b = 255 := by
          have : (255 : Nat) ≤ b := by exact_mod_cast h255
          omega
        simp [hb255]
      · rw [if_neg h255]
        have hz := roundTiesEven_intCast (b : Int)
        rw [show ((b : Int) : Rat) = (b : Rat) by push_cast; ring] at hz
        rw [hz]
        simp
    · push_neg
      exact_mod_cast hb

/-! ### C6: fixed stage order of processFrame -/

/-- C6: for every input frame, effect name and mirror flag,
CpuShaderPipeline.processFrame equals luminance extraction composed
with the selected effect (none applying no effect, via the CPU_EFFECTS
dispatch with its default parameters) composed with the optional
horizontal mirror, the mirror applied first; the transformed RGBA
bytes are passed through as the color plane. -/
theorem processFrame_stage_order (pl : CpuShaderPipeline) (frame : Frame)
    (effect : EffectName) (mirror : Bool) :
    pl.processFrame frame effect mirror =
      { luminance :=
          extractLuminance pl
            (CPU_EFFECTS effect (if mirror then cpuMirror frame else frame)),
        color :=
          some (CPU_EFFECTS effect (if mirror then cpuMirror frame else frame)).data,
        width := pl.outWidth,
        height := pl.outHeight } := by
  cases effect <;> cases mirror <;> rfl

/-! ### C4: start surfaces subprocess spawn failure -/

/-- C4: when spawning the capture subprocess fails, FfmpegCamera.start
propagates the startup error to its caller (there is no handler around
the spawn, so the promise returned by start rejects with it); only a
successful spawn lets start complete, and then the camera is running. -/
theorem start_surfaces_startup_error (st : CamState) (e : StartupError) (p : Nat) :
    start st (Except.error e) = Except.error e ∧
    ∃ st2, start st (Except.ok p) = Except.ok st2 ∧
      st2.running = true ∧ st2.readerDone = false := by
  exact ⟨rfl, _, rfl, rfl, rfl⟩

/-! ### C3: the single-flight guard of the frame callback -/

/-- C3: a tick of the frame callback that arrives while the processing
guard is set returns immediately, leaving the state untouched and
neither fetching a frame nor invoking the pipeline; and a tick that
takes the guard clears it on every exit path — for every outcome of the
pipeline call, including a throwing Transform Stage — so one failing
frame cannot leave the guard set and stall subsequent ticks. -/
theorem tick_single_flight (st : SchedState) (frame? : Option Frame)
    (transform : Frame → Except Unit ProcessedFrame) (nowStart nowEnd : Rat) :
    (st.processing = true →
      tick st frame? transform nowStart nowEnd
        = (st, { fetched := false, invoked := false, raised := false })) ∧
    (st.processing = false →
      (tick st frame? transform nowStart nowEnd).1.processing = false) := by
  constructor
  · intro h
    simp [tick, h]
  · intro h
    simp [tick, h]

theorem clamp8_255 : clamp8 (255 : Rat) = 255 := by
  norm_num [clamp8]

/-- Value of byte i of a cpuThreshold output, for i inside the buffer. -/
theorem cpuThreshold_data_eq (frame : Frame) (cutoff : Rat) {i : Nat}
    (h : i < frame.data.length) :
    byteAt (cpuThreshold frame cutoff).data i =
      if i % 4 = 3 then clamp8 (byteAt frame.data i : Rat)
      else clamp8 (if cutoff ≤
          fl64 (fl64 (fl64 (fl64 (0.299 : Rat)
                * (byteAt frame.data (4 * (i / 4)) : Rat))
              + fl64 (fl64 (0.587 : Rat)
                * (byteAt frame.data (4 * (i / 4) + 1) : Rat)))
            + fl64 (fl64 (0.114 : Rat)
              * (byteAt frame.data (4 * (i / 4) + 2) : Rat)))
        then 255 else 0) := by
  simp only [cpuThreshold]
  rw [byteAt_buildBuf _ h]

/-- Value of byte i of a cpuMirror output, for i inside the buffer. -/
theorem cpuMirror_data_eq (frame : Frame) {i : Nat}
    (h : i < frame.data.length) :
    byteAt (cpuMirror frame).data i =
      if i / 4 < frame.width * frame.height then
        byteAt frame.data (mirrorIdx frame.width i)
      else 0 := by
  simp only [cpuMirror]
  rw [byteAt_buildBuf _ h]

/-- Value of byte i of a cpuEdges output, for i inside the buffer. -/
theorem cpuEdges_data_eq (frame : Frame) {i : Nat}
    (h : i < frame.data.length) :
    byteAt (cpuEdges frame).data i =
      if edgeInterior frame.width frame.height ((i / 4) % frame.width)
          ((i / 4) / frame.width) then
        if i % 4 = 3 then 255
        else clamp8 (sobelMag frame.data frame.width frame.height
          ((i / 4) % frame.width) ((i / 4) / frame.width))
      else 0 := by
  simp only [cpuEdges]
  rw [byteAt_buildBuf _ h]

/-! ### C9: threshold boundary behaviour at luminance 128 -/

theorem zpow_negNat_two (k : Nat) (e : Int) (h : e = -(k : Int)) :
    (2 : Rat) ^ e = 1 / 2 ^ k := by
  rw [h, zpow_neg, zpow_natCast, one_div]

/-- Evaluation of roundTiesEven when the value sits in the lower half
of its unit interval. -/
theorem roundTiesEven_eval_low (q : Rat) (n : Int)
    (h1 : (n : Rat) ≤ q) (h2 : q < (n : Rat) + 1/2) :
    roundTiesEven q = n := by
  have hf : ⌊q⌋ = n := Int.floor_eq_iff.mpr ⟨h1, by linarith⟩
  unfold roundTiesEven
  dsimp only
  rw [hf, if_pos (by linarith : q - ((n : Int) : Rat) < 1/2)]

/-- Evaluation of roundTiesEven when the value sits in the upper half
of its unit interval. -/
theorem roundTiesEven_eval_high (q : Rat) (n : Int)
    (h1 : (n : Rat) - 1/2 < q) (h2 : q < (n : Rat)) :
    roundTiesEven q = n := by
  have hf : ⌊q⌋ = n - 1 := Int.floor_eq_iff.mpr
    ⟨by push_cast; linarith, by push_cast; linarith⟩
  unfold roundTiesEven
  dsimp only
  rw [hf]
  rw [if_neg (not_lt.mpr (by push_cast; linarith :
    (1/2 : Rat) ≤ q - ((n - 1 : Int) : Rat)))]
  rw [if_pos (by push_cast; linarith : (1/2 : Rat) < q - ((n - 1 : Int) : Rat))]
  omega

/-- Evaluation of roundTiesEven at an exact tie with an even low
integer. -/
theorem roundTiesEven_eval_tie (q : Rat) (n : Int)
    (h : q = (n : Rat) + 1/2) (hev : 2 ∣ n) :
    roundTiesEven q = n := by
  have hf : ⌊q⌋ = n := Int.floor_eq_iff.mpr
    ⟨by rw [h]; linarith, by rw [h]; linarith⟩
  unfold roundTiesEven
  dsimp only
  rw [hf]
  rw [if_neg (not_lt.mpr (by rw [h]; linarith :
    (1/2 : Rat) ≤ q - ((n : Int) : Rat)))]
  rw [if_neg (not_lt.mpr (by rw [h]; linarith :
    q - ((n : Int) : Rat) ≤ 1/2))]
  rw [if_pos hev]

theorem roundTiesEven_eval_int (q : Rat) (n : Int) (h : q = (n : Rat)) :
    roundTiesEven q = n := by
  rw [h, roundTiesEven_intCast]

/-- Correctness of the exponent computation: if 2 ^ e <= q < 2 ^ (e+1)
with e at least -200, floorLog2Q returns e. -/
theorem floorLog2Q_eq (q : Rat) (e : Int) (he : -200 ≤ e)
    (h1 : (2 : Rat) ^ e ≤ q) (h2 : q < (2 : Rat) ^ (e + 1)) :
    floorLog2Q q = e := by
  have hq0 : 0 < q := lt_of_lt_of_le (by positivity) h1
  have hb : 0 < q.den := q.den_pos
  have hnum : 0 < q.num := Rat.num_pos.mpr hq0
  have hEe : ((e + 200).toNat : Int) = e + 200 := Int.toNat_of_nonneg (by omega)
  have hq : q = (q.num : Rat) / (q.den : Rat) := (Rat.num_div_den q).symm
  have hden0 : (0 : Rat) < (q.den : Rat) := by exact_mod_cast hb
  have hnn : (q.num : Rat) = ((q.num.toNat : Nat) : Rat) := by
    have hz : (q.num.toNat : Int) = q.num := Int.toNat_of_nonneg hnum.le
    exact_mod_cast hz.symm
  have hpowE : (2 : Rat) ^ e
      = ((2 ^ (e + 200).toNat : Nat) : Rat) / ((2 ^ 200 : Nat) : Rat) := by
    rw [Nat.cast_pow, Nat.cast_pow, Nat.cast_ofNat]
    rw [← zpow_natCast (2 : Rat) (e + 200).toNat, ← zpow_natCast (2 : Rat) 200,
      ← zpow_sub₀ (two_ne_zero)]
    congr 1
    omega
  have hpowE1 : (2 : Rat) ^ (e + 1)
      = ((2 ^ ((e + 200).toNat + 1) : Nat) : Rat) / ((2 ^ 200 : Nat) : Rat) := by
    rw [Nat.cast_pow, Nat.cast_pow, Nat.cast_ofNat]
    rw [← zpow_natCast (2 : Rat) ((e + 200).toNat + 1), ← zpow_natCast (2 : Rat) 200,
      ← zpow_sub₀ (two_ne_zero)]
    congr 1
    push_cast
    omega
  have hN1 : 2 ^ (e + 200).toNat * q.den ≤ q.num.toNat * 2 ^ 200 := by
    have h := h1
    rw [hpowE, hq, div_le_div_iff₀ (by positivity) hden0, hnn] at h
    exact_mod_cast h
  have hN2 : q.num.toNat * 2 ^ 200 < 2 ^ ((e + 200).toNat + 1) * q.den := by
    have h := h2
    rw [hpowE1, hq, div_lt_div_iff₀ hden0 (by positivity), hnn] at h
    exact_mod_cast h
  have hlog : Nat.log 2 (q.num.toNat * 2 ^ 200 / q.den) = (e + 200).toNat := by
    apply Nat.log_eq_of_pow_le_of_lt_pow
    · exact (Nat.le_div_iff_mul_le hb).mpr hN1
    · exact (Nat.div_lt_iff_lt_mul hb).mpr hN2
  unfold floorLog2Q
  rw [hlog]
  omega

/-- Evaluation scheme for fl64: bracketing the value between
u * 2 ^ 52 and u * 2 ^ 53 (u the unit in the last place, 2 ^ (e - 52))
reduces fl64 to one roundTiesEven computation. -/
theorem fl64_eval {q : Rat} (e : Int) (u : Rat) (m : Int)
    (he : -200 ≤ e)
    (hu : u = (2 : Rat) ^ (e - 52))
    (h1 : u * 2 ^ 52 ≤ q) (h2 : q < u * 2 ^ 53)
    (hm : roundTiesEven (q / u) = m) :
    fl64 q = (m : Rat) * u := by
  have hu0 : 0 < u := by rw [hu]; positivity
  have hq0 : 0 < q := lt_of_lt_of_le (by positivity) h1
  have hb1 : (2 : Rat) ^ e ≤ q := by
    have hx : (2 : Rat) ^ e = u * 2 ^ 52 := by
      rw [hu, ← zpow_natCast (2 : Rat) 52, ← zpow_add₀ (two_ne_zero)]
      congr 1
      push_cast
      ring
    rw [hx]
    exact h1
  have hb2 : q < (2 : Rat) ^ (e + 1) := by
    have hx : (2 : Rat) ^ (e + 1) = u * 2 ^ 53 := by
      rw [hu, ← zpow_natCast (2 : Rat) 53, ← zpow_add₀ (two_ne_zero)]
      congr 1
      push_cast
      ring
    rw [hx]
    exact h2
  have hfe : floorLog2Q q = e := floorLog2Q_eq q e he hb1 hb2
  unfold fl64
  rw [if_neg hq0.ne']
  dsimp only
  rw [abs_of_pos hq0, hfe, if_neg (not_lt.mpr hq0.le), ← hu, hm]
  ring

/-- C9: the spec fixes the threshold boundary tie-break: a pixel whose
luminance 0.299 R + 0.587 G + 0.114 B is exactly 128 must classify as
on under cutoff 128.  The code computes that luminance in binary64
floating point, and at R = G = B = 128 — the canonical pixel of exact
luminance 128, as the first conjunct states — the computed value is
9007199254740991 / 2 ^ 46 = 127.99999999999999 < 128, so cpuThreshold
writes 0 to R, G and B: the code classifies the boundary pixel as off,
contradicting the claim; the alpha byte is still copied unchanged. -/
theorem threshold_tiebreak_code_bug :
    (0.299 : Rat) * 128 + (0.587 : Rat) * 128 + (0.114 : Rat) * 128 = 128 ∧
    byteAt (cpuThreshold ⟨1, 1, [128, 128, 128, 255], 0⟩ 128).data 0 = 0 ∧
    byteAt (cpuThreshold ⟨1, 1, [128, 128, 128, 255], 0⟩ 128).data 1 = 0 ∧
    byteAt (cpuThreshold ⟨1, 1, [128, 128, 128, 255], 0⟩ 128).data 2 = 0 ∧
    byteAt (cpuThreshold ⟨1, 1, [128, 128, 128, 255], 0⟩ 128).data 3 = 255 := by
  have h299 : fl64 (0.299 : Rat) = 5386305154335113 * (1 / 2 ^ 54) :=
    fl64_eval (-2) (1 / 2 ^ 54) 5386305154335113 (by norm_num)
      ((zpow_negNat_two 54 (-2 - 52) (by norm_num)).symm)
      (by norm_num) (by norm_num)
      (roundTiesEven_eval_low _ _ (by norm_num) (by norm_num))
  have h587 : fl64 (0.587 : Rat) = 5287225962532962 * (1 / 2 ^ 53) :=
    fl64_eval (-1) (1 / 2 ^ 53) 5287225962532962 (by norm_num)
      ((zpow_negNat_two 53 (-1 - 52) (by norm_num)).symm)
      (by norm_num) (by norm_num)
      (roundTiesEven_eval_low _ _ (by norm_num) (by norm_num))
  have h114 : fl64 (0.114 : Rat) = 8214565720323785 * (1 / 2 ^ 56) :=
    fl64_eval (-4) (1 / 2 ^ 56) 8214565720323785 (by norm_num)
      ((zpow_negNat_two 56 (-4 - 52) (by norm_num)).symm)
      (by norm_num) (by norm_num)
      (roundTiesEven_eval_high _ _ (by norm_num) (by norm_num))
  have hp1 : fl64 (5386305154335113 * (1 / 2 ^ 54) * ((128 : Nat) : Rat))
      = 5386305154335113 * (1 / 2 ^ 47) :=
    fl64_eval 5 (1 / 2 ^ 47) 5386305154335113 (by norm_num)
      ((zpow_negNat_two 47 (5 - 52) (by norm_num)).symm)
      (by norm_num) (by norm_num)
      (roundTiesEven_eval_int _ _ (by norm_num))
  have hp2 : fl64 (5287225962532962 * (1 / 2 ^ 53) * ((128 : Nat) : Rat))
      = 5287225962532962 * (1 / 2 ^ 46) :=
    fl64_eval 6 (1 / 2 ^ 46) 5287225962532962 (by norm_num)
      ((zpow_negNat_two 46 (6 - 52) (by norm_num)).symm)
      (by norm_num) (by norm_num)
      (roundTiesEven_eval_int _ _ (by norm_num))
  have hp3 : fl64 (8214565720323785 * (1 / 2 ^ 56) * ((128 : Nat) : Rat))
      = 8214565720323785 * (1 / 2 ^ 49) :=
    fl64_eval 3 (1 / 2 ^ 49) 8214565720323785 (by norm_num)
      ((zpow_negNat_two 49 (3 - 52) (by norm_num)).symm)
      (by norm_num) (by norm_num)
      (roundTiesEven_eval_int _ _ (by norm_num))
  have hs1 : fl64 (5386305154335113 * (1 / 2 ^ 47)
        + 5287225962532962 * (1 / 2 ^ 46))
      = 7980378539700518 * (1 / 2 ^ 46) :=
    fl64_eval 6 (1 / 2 ^ 46) 7980378539700518 (by norm_num)
      ((zpow_negNat_two 46 (6 - 52) (by norm_num)).symm)
      (by norm_num) (by norm_num)
      (roundTiesEven_eval_tie _ _ (by norm_num) (by norm_num))
  have hlum : fl64 (7980378539700518 * (1 / 2 ^ 46)
        + 8214565720323785 * (1 / 2 ^ 49))
      = 9007199254740991 * (1 / 2 ^ 46) :=
    fl64_eval 6 (1 / 2 ^ 46) 9007199254740991 (by norm_num)
      ((zpow_negNat_two 46 (6 - 52) (by norm_num)).symm)
      (by norm_num) (by norm_num)
      (roundTiesEven_eval_low _ _ (by norm_num) (by norm_num))
  have hoff : ∀ c : Nat, c < 3 →
      byteAt (cpuThreshold ⟨1, 1, [128, 128, 128, 255], 0⟩ 128).data c = 0 := by
    intro c hc
    have hblen : c < (⟨1, 1, [128, 128, 128, 255], 0⟩ : Frame).data.length := by
      show c < ([128, 128, 128, 255] : List Nat).length
      simp only [List.length_cons, List.length_nil]
      omega
    rw [cpuThreshold_data_eq _ _ hblen]
    have hmod : ¬(c % 4 = 3) := by omega
    rw [if_neg hmod]
    have hdiv : 4 * (c / 4) = 0 := by omega
    rw [hdiv]
    have hb0 : byteAt (⟨1, 1, [128, 128, 128, 255], 0⟩ : Frame).data 0 = 128 := rfl
    have hb1 : byteAt (⟨1, 1, [128, 128, 128, 255], 0⟩ : Frame).data (0 + 1) = 128 := rfl
    have hb2 : byteAt (⟨1, 1, [128, 128, 128, 255], 0⟩ : Frame).data (0 + 2) = 128 := rfl
    rw [hb0, hb1, hb2, h299, h587, h114, hp1, hp2, hp3, hs1, hlum]
    rw [if_neg (by norm_num :
      ¬((128 : Rat) ≤ 9007199254740991 * (1 / 2 ^ 46)))]
    simp [clamp8]
  refine ⟨by norm_num, hoff 0 (by omega), hoff 1 (by omega), hoff 2 (by omega), ?_⟩
  have hblen3 : (3 : Nat) < (⟨1, 1, [128, 128, 128, 255], 0⟩ : Frame).data.length := by
    show (3 : Nat) < ([128, 128, 128, 255] : List Nat).length
    simp
  rw [cpuThreshold_data_eq _ _ hblen3]
  rw [if_pos (by norm_num : (3 : Nat) % 4 = 3)]
  have hb3 : byteAt (⟨1, 1, [128, 128, 128, 255], 0⟩ : Frame).data 3 = 255 := rfl
  rw [hb3]
  exact clamp8_byte (le_refl 255)

/-! ### C7: the 1:1 fast path matches the downscale path -/

/-- C7: when the source dimensions equal the output dimensions, the
dedicated 1:1 fast path of the luminance extraction produces exactly
the same values as the general nearest-neighbour downscale path would
on the same data: the fast path is an optimization, not a different
computation. -/
theorem downscale_eq_fastpath (d : List Nat) (srcW srcH outW outH : Nat)
    (hw : srcW = outW) (hh : srcH = outH) :
    downscaleLuminance d srcW srcH outW outH = fastPathLuminance d outW outH := by
  subst hw
  subst hh
  unfold downscaleLuminance fastPathLuminance buildBufQ
  apply List.map_congr_left
  intro j hj
  have hj2 : j < srcW * srcH := List.mem_range.mp hj
  have hW : 0 < srcW := by
    rcases Nat.eq_zero_or_pos srcW with h0 | h0
    · simp [h0] at hj2
    · exact h0
  have hH : 0 < srcH := by
    rcases Nat.eq_zero_or_pos srcH with h0 | h0
    · simp [h0] at hj2
    · exact h0
  have hx : j % srcW < srcW := Nat.mod_lt _ hW
  have hy : j / srcW < srcH := Nat.div_lt_of_lt_mul hj2
  have key : ∀ a b : Nat, a < b →
      min ((⌊(a : Rat) * ((b : Rat) / (b : Rat))⌋).toNat) (b - 1) = a := by
    intro a b hab
    have hb : (b : Rat) ≠ 0 := by
      have : 0 < b := by omega
      exact_mod_cast this.ne'
    rw [div_self hb, mul_one, Int.floor_natCast]
    simp
    omega
  have hidx : ((j / srcW) * srcW + j % srcW) * 4 = 4 * j := by
    rw [Nat.div_add_mod']
    omega
  dsimp only
  rw [key _ _ hy, key _ _ hx, hidx]

/-- Witness for C7 on a concrete 2 x 1 frame with matching output
dimensions. -/
theorem downscale_eq_fastpath_witness :
    (2 = 2 ∧ 1 = 1) ∧
    downscaleLuminance [10, 20, 30, 255, 50, 60, 70, 255] 2 1 2 1
      = fastPathLuminance [10, 20, 30, 255, 50, 60, 70, 255] 2 1 :=
  ⟨⟨rfl, rfl⟩, downscale_eq_fastpath [10, 20, 30, 255, 50, 60, 70, 255] 2 1 2 1 rfl rfl⟩

/-! ### C8: mirror is a self-inverse whole-pixel swap -/

theorem cpuMirror_width (f : Frame) : (cpuMirror f).width = f.width := rfl

theorem cpuMirror_height (f : Frame) : (cpuMirror f).height = f.height := rfl

theorem cpuMirror_data_length (f : Frame) :
    (cpuMirror f).data.length = f.data.length := by
  simp [cpuMirror, buildBuf_length]

theorem mod_mul_add_lt {y r w h : Nat} (hy : y < h) (hr : r < w) :
    y * w + r < w * h := by
  calc y * w + r < y * w + w := by omega
    _ = (y + 1) * w := by ring
    _ ≤ h * w := Nat.mul_le_mul_right w hy
    _ = w * h := Nat.mul_comm h w

theorem mul_add_mod_of_lt {y r w : Nat} (hr : r < w) : (y * w + r) % w = r := by
  rw [Nat.add_comm, Nat.add_mul_mod_self_right, Nat.mod_eq_of_lt hr]

theorem mul_add_div_of_lt {y r w : Nat} (hw : 0 < w) (hr : r < w) :
    (y * w + r) / w = y := by
  rw [Nat.add_comm, Nat.add_mul_div_right _ _ hw, Nat.div_eq_of_lt hr, Nat.zero_add]

/-- The mirrored byte index stays inside the pixel area. -/
theorem mirrorIdx_lt {w h i : Nat} (hw : 0 < w) (hi : i < w * h * 4) :
    mirrorIdx w i < w * h * 4 := by
  unfold mirrorIdx
  dsimp only
  have hp : i / 4 < w * h := by omega
  have hx : (i / 4) % w < w := Nat.mod_lt _ hw
  have hy : (i / 4) / w < h := Nat.div_lt_of_lt_mul hp
  have hc : i % 4 < 4 := Nat.mod_lt _ (by omega)
  have hq : (i / 4) / w * w + (w - 1 - (i / 4) % w) < w * h :=
    mod_mul_add_lt hy (by omega)
  omega

/-- Mirroring a byte index twice is the identity on the pixel area. -/
theorem mirrorIdx_involution {w h i : Nat} (hw : 0 < w) (_hi : i < w * h * 4) :
    mirrorIdx w (mirrorIdx w i) = i := by
  unfold mirrorIdx
  dsimp only
  have hx : (i / 4) % w < w := Nat.mod_lt _ hw
  have hxr : w - 1 - (i / 4) % w < w := by omega
  have h4d : (((i / 4) / w * w + (w - 1 - (i / 4) % w)) * 4 + i % 4) / 4
      = (i / 4) / w * w + (w - 1 - (i / 4) % w) := by omega
  have h4m : (((i / 4) / w * w + (w - 1 - (i / 4) % w)) * 4 + i % 4) % 4
      = i % 4 := by omega
  rw [h4d, h4m, mul_add_mod_of_lt hxr, mul_add_div_of_lt hw hxr]
  have hxx : w - 1 - (w - 1 - (i / 4) % w) = (i / 4) % w := by omega
  rw [hxx]
  have hpd : (i / 4) / w * w + (i / 4) % w = i / 4 := Nat.div_add_mod' (i / 4) w
  rw [hpd]
  omega

attribute [ext] Frame

/-- C8: applying the horizontal mirror twice reproduces the frame
exactly, and a single mirror moves whole 4-byte pixels: byte c of the
pixel at column x comes from byte c of the pixel at column
width - 1 - x of the same row, so no channel shuffling occurs. -/
theorem mirror_self_inverse (frame : Frame)
    (hlen : frame.data.length = frame.width * frame.height * 4) :
    cpuMirror (cpuMirror frame) = frame ∧
    (∀ y x c : Nat, y < frame.height → x < frame.width → c < 4 →
      byteAt (cpuMirror frame).data ((y * frame.width + x) * 4 + c)
        = byteAt frame.data
            ((y * frame.width + (frame.width - 1 - x)) * 4 + c)) := by
  obtain ⟨w, h, d, ts⟩ := frame
  dsimp only at hlen ⊢
  constructor
  · have hdata : (cpuMirror (cpuMirror ⟨w, h, d, ts⟩)).data = d := by
      apply List.ext_getElem
      · rw [cpuMirror_data_length, cpuMirror_data_length]
      · intro i h1 h2
        have hi : i < w * h * 4 := by
          rw [cpuMirror_data_length, cpuMirror_data_length] at h1
          dsimp only at h1
          omega
        have hw : 0 < w := by
          rcases Nat.eq_zero_or_pos w with h0 | h0
          · subst h0; simp at hi
          · exact h0
        have hb1 : i < (cpuMirror ⟨w, h, d, ts⟩).data.length := by
          rw [cpuMirror_data_length]
          dsimp only
          omega
        have hb2 : mirrorIdx w i < (⟨w, h, d, ts⟩ : Frame).data.length := by
          dsimp only
          have := mirrorIdx_lt (h := h) hw hi
          omega
        rw [← List.getD_eq_getElem _ 0 h1, ← List.getD_eq_getElem _ 0 h2]
        have s1 := cpuMirror_data_eq (cpuMirror ⟨w, h, d, ts⟩) hb1
        simp only [cpuMirror_width, cpuMirror_height] at s1
        rw [if_pos (by omega : i / 4 < w * h)] at s1
        have s2 := cpuMirror_data_eq (⟨w, h, d, ts⟩ : Frame) hb2
        dsimp only at s2
        rw [if_pos (by
          have := mirrorIdx_lt (h := h) hw hi
          omega : mirrorIdx w i / 4 < w * h)] at s2
        show byteAt (cpuMirror (cpuMirror ⟨w, h, d, ts⟩)).data i = byteAt d i
        rw [s1, s2, mirrorIdx_involution hw hi]
    exact Frame.ext rfl rfl hdata rfl
  · intro y x c hy hx hc
    have hi : (y * w + x) * 4 + c < w * h * 4 := by
      have := mod_mul_add_lt hy hx
      omega
    have hb : (y * w + x) * 4 + c < (⟨w, h, d, ts⟩ : Frame).data.length := by
      dsimp only
      omega
    have s := cpuMirror_data_eq (⟨w, h, d, ts⟩ : Frame) hb
    dsimp only at s
    have hp4 : ((y * w + x) * 4 + c) / 4 = y * w + x := by omega
    rw [hp4] at s
    rw [if_pos (mod_mul_add_lt hy hx)] at s
    have hmi : mirrorIdx w ((y * w + x) * 4 + c)
        = (y * w + (w - 1 - x)) * 4 + c := by
      unfold mirrorIdx
      dsimp only
      have hm4 : ((y * w + x) * 4 + c) % 4 = c := by omega
      rw [hp4, hm4, mul_add_mod_of_lt hx, mul_add_div_of_lt (by omega) hx]
    rw [hmi] at s
    exact s

/-- Witness for C8 on a concrete 2 x 1 frame. -/
theorem mirror_self_inverse_witness :
    (Frame.mk 2 1 [1, 2, 3, 4, 5, 6, 7, 8] 0).data.length = 2 * 1 * 4 ∧
    cpuMirror (cpuMirror ⟨2, 1, [1, 2, 3, 4, 5, 6, 7, 8], 0⟩)
      = ⟨2, 1, [1, 2, 3, 4, 5, 6, 7, 8], 0⟩ :=
  ⟨by decide,
    (mirror_self_inverse ⟨2, 1, [1, 2, 3, 4, 5, 6, 7, 8], 0⟩ (by decide)).1⟩

/-! ### C10: edges writes only interior pixels, border stays zero -/

/-- C10: cpuEdges writes the Sobel magnitude (with alpha 255) only at
interior pixels, those with 1 <= x <= width - 2 and
1 <= y <= height - 2; every byte of every non-interior pixel is 0,
including the alpha byte, so the border is transparent black; and when
width < 3 or height < 3 the entire output buffer is zero. -/
theorem edges_interior_only (frame : Frame)
    (hlen : frame.data.length = frame.width * frame.height * 4) :
    (∀ i : Nat, i < frame.data.length →
      ¬ (1 ≤ (i / 4) % frame.width ∧ (i / 4) % frame.width ≤ frame.width - 2
          ∧ 1 ≤ (i / 4) / frame.width
          ∧ (i / 4) / frame.width ≤ frame.height - 2) →
      byteAt (cpuEdges frame).data i = 0) ∧
    (∀ i : Nat, i < frame.data.length →
      (1 ≤ (i / 4) % frame.width ∧ (i / 4) % frame.width ≤ frame.width - 2
        ∧ 1 ≤ (i / 4) / frame.width
        ∧ (i / 4) / frame.width ≤ frame.height - 2) →
      (i % 4 = 3 → byteAt (cpuEdges frame).data i = 255) ∧
      (i % 4 < 3 → byteAt (cpuEdges frame).data i
        = clamp8 (sobelMag frame.data frame.width frame.height
            ((i / 4) % frame.width) ((i / 4) / frame.width)))) ∧
    (frame.width < 3 ∨ frame.height < 3 →
      ∀ i : Nat, i < frame.data.length →
        byteAt (cpuEdges frame).data i = 0) := by
  obtain ⟨w, h, d, ts⟩ := frame
  dsimp only at hlen ⊢
  have hiff : ∀ x y : Nat,
      edgeInterior w h x y ↔
        (1 ≤ x ∧ x ≤ w - 2 ∧ 1 ≤ y ∧ y ≤ h - 2) := by
    intro x y
    unfold edgeInterior
    omega
  refine ⟨?_, ?_, ?_⟩
  · intro i hb hni
    have s := cpuEdges_data_eq (⟨w, h, d, ts⟩ : Frame) hb
    dsimp only at s
    rw [if_neg (by rw [hiff]; exact hni)] at s
    exact s
  · intro i hb hin
    have s := cpuEdges_data_eq (⟨w, h, d, ts⟩ : Frame) hb
    dsimp only at s
    rw [if_pos ((hiff _ _).mpr hin)] at s
    constructor
    · intro hc
      rw [if_pos hc] at s
      exact s
    · intro hc
      rw [if_neg (by omega)] at s
      exact s
  · intro hsmall i hb
    have s := cpuEdges_data_eq (⟨w, h, d, ts⟩ : Frame) hb
    dsimp only at s
    rw [if_neg (by rw [hiff]; omega)] at s
    exact s

/-- Witness for C10 on a concrete 3 x 3 frame: the corner byte is zero
and the alpha byte of the single interior pixel is 255. -/
theorem edges_interior_only_witness :
    byteAt (cpuEdges ⟨3, 3, List.replicate 36 7, 0⟩).data 0 = 0 ∧
    byteAt (cpuEdges ⟨3, 3, List.replicate 36 7, 0⟩).data 19 = 255 :=
  ⟨(edges_interior_only ⟨3, 3, List.replicate 36 7, 0⟩ (by decide)).1 0
      (by decide) (by decide),
    ((edges_interior_only ⟨3, 3, List.replicate 36 7, 0⟩ (by decide)).2.1 19
      (by decide) (by decide)).1 (by decide)⟩

/-! ### Demuxer: greedy block decomposition lemmas -/

theorem blocksF_nil (fs fuel : Nat) : blocksF fs fuel [] = [] := by
  cases fuel with
  | zero => rfl
  | succ n =>
    unfold blocksF
    rw [if_neg]
    simp
    omega

theorem remF_nil (fs fuel : Nat) : remF fs fuel [] = [] := by
  cases fuel with
  | zero => rfl
  | succ n =>
    unfold remF
    rw [if_neg]
    simp
    omega

theorem blocksF_congr (fs : Nat) :
    ∀ fuel1 fuel2 l, l.length ≤ fuel1 → l.length ≤ fuel2 →
      blocksF fs fuel1 l = blocksF fs fuel2 l := by
  intro fuel1
  induction fuel1 with
  | zero =>
    intro fuel2 l h1 _h2
    have : l = [] := List.eq_nil_of_length_eq_zero (by omega)
    subst this
    rw [blocksF_nil, blocksF_nil]
  | succ n ih =>
    intro fuel2 l h1 h2
    cases fuel2 with
    | zero =>
      have : l = [] := List.eq_nil_of_length_eq_zero (by omega)
      subst this
      rw [blocksF_nil, blocksF_nil]
    | succ m =>
      unfold blocksF
      by_cases hc : 0 < fs ∧ fs ≤ l.length
      · rw [if_pos hc, if_pos hc]
        have hd : (l.drop fs).length ≤ n := by
          rw [List.length_drop]
          omega
        have hd2 : (l.drop fs).length ≤ m := by
          rw [List.length_drop]
          omega
        rw [ih m (l.drop fs) hd hd2]
      · rw [if_neg hc, if_neg hc]

theorem remF_congr (fs : Nat) :
    ∀ fuel1 fuel2 l, l.length ≤ fuel1 → l.length ≤ fuel2 →
      remF fs fuel1 l = remF fs fuel2 l := by
  intro fuel1
  induction fuel1 with
  | zero =>
    intro fuel2 l h1 _h2
    have : l = [] := List.eq_nil_of_length_eq_zero (by omega)
    subst this
    rw [remF_nil, remF_nil]
  | succ n ih =>
    intro fuel2 l h1 h2
    cases fuel2 with
    | zero =>
      have : l = [] := List.eq_nil_of_length_eq_zero (by omega)
      subst this
      rw [remF_nil, remF_nil]
    | succ m =>
      unfold remF
      by_cases hc : 0 < fs ∧ fs ≤ l.length
      · rw [if_pos hc, if_pos hc]
        have hd : (l.drop fs).length ≤ n := by
          rw [List.length_drop]
          omega
        have hd2 : (l.drop fs).length ≤ m := by
          rw [List.length_drop]
          omega
        rw [ih m (l.drop fs) hd hd2]
      · rw [if_neg hc, if_neg hc]

theorem blocksF_eq_blocks (fs fuel : Nat) (l : List Nat) (h : l.length ≤ fuel) :
    blocksF fs fuel l = blocks fs l :=
  blocksF_congr fs fuel l.length l h le_rfl

theorem remF_eq_rem (fs fuel : Nat) (l : List Nat) (h : l.length ≤ fuel) :
    remF fs fuel l = rem fs l :=
  remF_congr fs fuel l.length l h le_rfl

theorem blocks_pos (fs : Nat) (l : List Nat) (h : 0 < fs ∧ fs ≤ l.length) :
    blocks fs l = l.take fs :: blocks fs (l.drop fs) := by
  have key : ∀ fuel, l.length ≤ fuel →
      blocksF fs fuel l = l.take fs :: blocks fs (l.drop fs) := by
    intro fuel hf
    cases fuel with
    | zero => omega
    | succ k =>
      unfold blocksF
      rw [if_pos h,
        blocksF_eq_blocks fs k (l.drop fs) (by rw [List.length_drop]; omega)]
  exact key l.length le_rfl

theorem blocks_neg (fs : Nat) (l : List Nat) (h : ¬(0 < fs ∧ fs ≤ l.length)) :
    blocks fs l = [] := by
  have key : ∀ fuel, blocksF fs fuel l = [] := by
    intro fuel
    cases fuel with
    | zero => rfl
    | succ k =>
      unfold blocksF
      rw [if_neg h]
  exact key l.length

theorem rem_pos (fs : Nat) (l : List Nat) (h : 0 < fs ∧ fs ≤ l.length) :
    rem fs l = rem fs (l.drop fs) := by
  have key : ∀ fuel, l.length ≤ fuel →
      remF fs fuel l = rem fs (l.drop fs) := by
    intro fuel hf
    cases fuel with
    | zero => omega
    | succ k =>
      unfold remF
      rw [if_pos h]
      exact remF_eq_rem fs k (l.drop fs) (by rw [List.length_drop]; omega)
  exact key l.length le_rfl

theorem rem_neg (fs : Nat) (l : List Nat) (h : ¬(0 < fs ∧ fs ≤ l.length)) :
    rem fs l = l := by
  have key : ∀ fuel, remF fs fuel l = l := by
    intro fuel
    cases fuel with
    | zero => rfl
    | succ k =>
      unfold remF
      rw [if_neg h]
  exact key l.length

theorem rem_length_lt (fs : Nat) (hfs : 0 < fs) :
    ∀ fuel l, l.length ≤ fuel → (rem fs l).length < fs := by
  intro fuel
  induction fuel with
  | zero =>
    intro l h
    have : l = [] := List.eq_nil_of_length_eq_zero (by omega)
    subst this
    rw [rem_neg fs [] (by simp; omega)]
    simpa using hfs
  | succ n ih =>
    intro l h
    by_cases hc : 0 < fs ∧ fs ≤ l.length
    · rw [rem_pos fs l hc]
      exact ih (l.drop fs) (by rw [List.length_drop]; omega)
    · rw [rem_neg fs l hc]
      omega

theorem blocks_append_aux (fs : Nat) :
    ∀ n l1 l2, l1.length ≤ n →
      blocks fs (l1 ++ l2) = blocks fs l1 ++ blocks fs (rem fs l1 ++ l2) := by
  intro n
  induction n with
  | zero =>
    intro l1 l2 h
    have : l1 = [] := List.eq_nil_of_length_eq_zero (by omega)
    subst this
    rw [blocks_neg fs [] (by simp; omega), rem_neg fs [] (by simp; omega)]
    simp
  | succ n ih =>
    intro l1 l2 h
    by_cases hc : 0 < fs ∧ fs ≤ l1.length
    · have hlen : 0 < fs ∧ fs ≤ (l1 ++ l2).length := by
        simp only [List.length_append]
        omega
      rw [blocks_pos fs (l1 ++ l2) hlen,
        List.take_append_of_le_length hc.2,
        List.drop_append_of_le_length hc.2,
        ih (l1.drop fs) l2 (by rw [List.length_drop]; omega),
        blocks_pos fs l1 hc, rem_pos fs l1 hc]
      simp
    · rw [blocks_neg fs l1 hc, rem_neg fs l1 hc]
      simp

theorem blocks_append (fs : Nat) (l1 l2 : List Nat) :
    blocks fs (l1 ++ l2) = blocks fs l1 ++ blocks fs (rem fs l1 ++ l2) :=
  blocks_append_aux fs l1.length l1 l2 le_rfl

theorem rem_append_aux (fs : Nat) :
    ∀ n l1 l2, l1.length ≤ n →
      rem fs (l1 ++ l2) = rem fs (rem fs l1 ++ l2) := by
  intro n
  induction n with
  | zero =>
    intro l1 l2 h
    have : l1 = [] := List.eq_nil_of_length_eq_zero (by omega)
    subst this
    rw [rem_neg fs [] (by simp; omega)]
  | succ n ih =>
    intro l1 l2 h
    by_cases hc : 0 < fs ∧ fs ≤ l1.length
    · have hlen : 0 < fs ∧ fs ≤ (l1 ++ l2).length := by
        simp only [List.length_append]
        omega
      rw [rem_pos fs (l1 ++ l2) hlen,
        List.drop_append_of_le_length hc.2,
        ih (l1.drop fs) l2 (by rw [List.length_drop]; omega),
        rem_pos fs l1 hc]
    · rw [rem_neg fs l1 hc]

theorem rem_append (fs : Nat) (l1 l2 : List Nat) :
    rem fs (l1 ++ l2) = rem fs (rem fs l1 ++ l2) :=
  rem_append_aux fs l1.length l1 l2 le_rfl

/-! ### Demuxer: what the extraction loop publishes -/

theorem extractLoop_spec (fs : Nat) :
    ∀ fuel st, st.acc.length ≤ fuel →
      pubContents (extractLoop fs fuel st) = pubContents st ++ blocks fs st.acc ∧
      (extractLoop fs fuel st).acc = rem fs st.acc := by
  intro fuel
  induction fuel with
  | zero =>
    intro st h
    have hnil : st.acc = [] := List.eq_nil_of_length_eq_zero (by omega)
    rw [hnil]
    unfold extractLoop
    rw [blocks_neg fs [] (by simp; omega), rem_neg fs [] (by simp; omega)]
    simp [hnil]
  | succ n ih =>
    intro st h
    unfold extractLoop
    by_cases hc : 0 < fs ∧ fs ≤ st.acc.length
    · rw [if_pos hc]
      have hacc : (demuxStep fs st).acc = st.acc.drop fs := rfl
      have hlen : (demuxStep fs st).acc.length ≤ n := by
        rw [hacc, List.length_drop]
        omega
      have hrec := ih (demuxStep fs st) hlen
      rw [hrec.1, hrec.2, hacc]
      constructor
      · rw [blocks_pos fs st.acc hc]
        have hpc : pubContents (demuxStep fs st)
            = pubContents st ++ [st.acc.take fs] := by
          unfold pubContents demuxStep entryContent
          dsimp only
          by_cases hu : st.useA <;> simp [hu]
        rw [hpc]
        simp
      · rw [rem_pos fs st.acc hc]
    · rw [if_neg hc]
      rw [blocks_neg fs st.acc hc, rem_neg fs st.acc hc]
      simp

theorem feedChunk_spec (fs : Nat) (st : DemuxState) (c : List Nat) :
    pubContents (feedChunk fs st c) = pubContents st ++ blocks fs (st.acc ++ c) ∧
    (feedChunk fs st c).acc = rem fs (st.acc ++ c) := by
  unfold feedChunk
  exact extractLoop_spec fs _ _ le_rfl

theorem feedChunks_spec (fs : Nat) (hfs : 0 < fs) :
    ∀ cs st, st.acc.length < fs →
      pubContents (feedChunks fs st cs)
        = pubContents st ++ blocks fs (st.acc ++ cs.flatten) ∧
      (feedChunks fs st cs).acc = rem fs (st.acc ++ cs.flatten) := by
  intro cs
  induction cs with
  | nil =>
    intro st h
    unfold feedChunks
    simp only [List.foldl_nil, List.flatten_nil, List.append_nil]
    rw [blocks_neg fs st.acc (by omega), rem_neg fs st.acc (by omega)]
    simp
  | cons c cs ih =>
    intro st h
    have hstep := feedChunk_spec fs st c
    have hq : (feedChunk fs st c).acc.length < fs := by
      rw [hstep.2]
      exact rem_length_lt fs hfs (st.acc ++ c).length _ le_rfl
    have hrec := ih (feedChunk fs st c) hq
    have hfold : feedChunks fs st (c :: cs) = feedChunks fs (feedChunk fs st c) cs := by
      unfold feedChunks
      simp
    rw [hfold, hrec.1, hrec.2, hstep.1, hstep.2]
    constructor
    · rw [List.append_assoc (pubContents st)]
      congr 1
      have : st.acc ++ (c :: cs).flatten = (st.acc ++ c) ++ cs.flatten := by
        simp
      rw [this, blocks_append fs (st.acc ++ c) cs.flatten]
    · have : st.acc ++ (c :: cs).flatten = (st.acc ++ c) ++ cs.flatten := by
        simp
      rw [this, rem_append fs (st.acc ++ c) cs.flatten]

/-! ### C1: two back-to-back frames in three arbitrary chunks -/

/-- C1: feeding the bytes of two back-to-back frames F1 and F2 to the
demuxer accumulation and extraction loop as three chunks cut at
arbitrary boundaries that are not aligned to frame boundaries publishes
exactly two frames, the first with exactly the bytes of F1 and the
second with exactly the bytes of F2, in that order. -/
theorem demuxer_two_frames (w h : Nat) (F1 F2 c1 c2 c3 : List Nat)
    (hfs : 0 < w * h * 4)
    (h1 : F1.length = w * h * 4) (h2 : F2.length = w * h * 4)
    (hsplit : c1 ++ c2 ++ c3 = F1 ++ F2)
    (_hcut1 : c1.length ≠ 0 ∧ c1.length ≠ w * h * 4
      ∧ c1.length ≠ 2 * (w * h * 4))
    (_hcut2 : c1.length + c2.length ≠ 0
      ∧ c1.length + c2.length ≠ w * h * 4
      ∧ c1.length + c2.length ≠ 2 * (w * h * 4)) :
    pubContents (feedChunks (w * h * 4) (initDemux (w * h * 4)) [c1, c2, c3])
      = [F1, F2] := by
  have hq : (initDemux (w * h * 4)).acc.length < w * h * 4 := by
    simp only [initDemux, List.length_nil]
    omega
  have hspec := (feedChunks_spec (w * h * 4) hfs [c1, c2, c3]
    (initDemux (w * h * 4)) hq).1
  rw [hspec]
  have hflat : (initDemux (w * h * 4)).acc ++ [c1, c2, c3].flatten = F1 ++ F2 := by
    simp only [initDemux, List.flatten_cons, List.flatten_nil,
      List.append_nil, List.nil_append]
    rw [← List.append_assoc]
    exact hsplit
  rw [hflat]
  have hpub0 : pubContents (initDemux (w * h * 4)) = [] := by
    simp [pubContents, initDemux]
  rw [hpub0]
  have hlong : 0 < w * h * 4 ∧ w * h * 4 ≤ (F1 ++ F2).length := by
    rw [List.length_append]
    omega
  rw [blocks_pos (w * h * 4) (F1 ++ F2) hlong]
  have ht1 : (F1 ++ F2).take (w * h * 4) = F1 := by
    rw [← h1, List.take_left]
  have hd1 : (F1 ++ F2).drop (w * h * 4) = F2 := by
    rw [← h1, List.drop_left]
  rw [ht1, hd1]
  rw [blocks_pos (w * h * 4) F2 (by omega)]
  have ht2 : F2.take (w * h * 4) = F2 := by
    rw [← h2, List.take_length]
  have hd2 : F2.drop (w * h * 4) = [] := by
    rw [← h2, List.drop_length]
  rw [ht2, hd2]
  have hnil : blocks (w * h * 4) ([] : List Nat) = [] := by
    apply blocks_neg
    simp only [List.length_nil]
    omega
  rw [hnil]
  simp

/-- Witness for C1 with 1 x 1 RGBA frames (frame size 4): the 8-byte
stream of two frames cut at offsets 1 and 6. -/
theorem demuxer_two_frames_witness :
    pubContents (feedChunks 4 (initDemux 4) [[1], [2, 3, 4, 5, 6], [7, 8]])
      = [[1, 2, 3, 4], [5, 6, 7, 8]] := by
  have h := demuxer_two_frames 1 1 [1, 2, 3, 4] [5, 6, 7, 8]
    [1] [2, 3, 4, 5, 6] [7, 8]
    (by decide) (by decide) (by decide) (by decide) (by decide) (by decide)
  simpa using h

/-! ### C2: double-buffer alternation and non-mutation -/

theorem get_append_single {α : Type} (l : List α) (e : α) (k : Nat)
    (hk : k < (l ++ [e]).length) :
    (l ++ [e]).get ⟨k, hk⟩ = if h : k < l.length then l.get ⟨k, h⟩ else e := by
  by_cases h : k < l.length
  · rw [dif_pos h]
    exact List.getElem_append_left h
  · rw [dif_neg h]
    have hk2 : k = l.length := by
      simp only [List.length_append, List.length_cons, List.length_nil] at hk
      omega
    subst hk2
    exact List.getElem_concat_length l e _ rfl _

theorem parity_flip (n : Nat) :
    decide ((n + 1) % 2 = 0) = !decide (n % 2 = 0) := by
  by_cases hp : n % 2 = 0
  · have h2p : (n + 1) % 2 = 1 := by omega
    simp [hp, h2p]
  · have h2p : (n + 1) % 2 = 0 := by omega
    simp [hp, h2p]

/-- Appending one publish whose snapshots agree with the written buffer
and with the untouched buffer preserves the demuxer invariant. -/
theorem demuxInvAppend (st st2 : DemuxState) (e : PubEntry)
    (hpub : st2.published = st.published ++ [e])
    (huse : st2.useA = !st.useA)
    (het : e.target = st.useA)
    (hsnapT : snapOf e st.useA = bufOf st2 st.useA)
    (hsnapO : snapOf e (!st.useA) = bufOf st (!st.useA))
    (hInv : DemuxInv st) : DemuxInv st2 := by
  obtain ⟨h1, h2, h3, h4⟩ := hInv
  obtain ⟨b2A, b2B, u2, a2, l2, P2⟩ := st2
  dsimp only at hpub huse hsnapT ⊢
  subst hpub
  subst huse
  unfold DemuxInv
  dsimp only
  have hL : (st.published ++ [e]).length = st.published.length + 1 := by simp
  refine ⟨?_, ?_, ?_, ?_⟩
  · rw [hL, parity_flip, ← h1]
  · intro k hk
    rw [get_append_single]
    by_cases h : k < st.published.length
    · rw [dif_pos h]
      exact h2 k h
    · rw [dif_neg h]
      have hk2 : k = st.published.length := by
        rw [hL] at hk
        omega
      subst hk2
      rw [het, h1]
  · intro _hne
    rw [get_append_single]
    rw [dif_neg (by
      simp only [List.length_append, List.length_cons, List.length_nil]
      omega)]
    rw [het]
    exact hsnapT.symm
  · intro k hk
    rw [get_append_single, get_append_single]
    by_cases hlt : k + 1 < st.published.length
    · have hlt0 : k < st.published.length := by omega
      rw [dif_pos hlt, dif_pos hlt0]
      exact h4 k hlt
    · have hk1 : k + 1 = st.published.length := by
        rw [hL] at hk
        omega
      have hlt0 : k < st.published.length := by omega
      rw [dif_neg (by omega), dif_pos hlt0]
      have htar : (st.published.get ⟨k, hlt0⟩).target = !st.useA := by
        rw [h2 k hlt0, h1, ← hk1, parity_flip, Bool.not_not]
      have h30 := h3 (by omega)
      have hgeq : ∀ pf : st.published.length - 1 < st.published.length,
          st.published.get ⟨st.published.length - 1, pf⟩
            = st.published.get ⟨k, hlt0⟩ := by
        intro pf
        exact congrArg st.published.get
          (Fin.ext (show st.published.length - 1 = k by omega))
      rw [hgeq _] at h30
      rw [htar] at h30
      rw [htar, hsnapO]
      exact h30

theorem demuxStep_inv (fs : Nat) (st : DemuxState) (hInv : DemuxInv st) :
    DemuxInv (demuxStep fs st) := by
  refine demuxInvAppend st (demuxStep fs st)
    ⟨st.useA, if st.useA then st.acc.take fs else st.bufA,
      if st.useA then st.bufB else st.acc.take fs⟩
    rfl rfl rfl ?_ ?_ hInv
  · by_cases hu : st.useA <;> simp [snapOf, bufOf, demuxStep, hu]
  · by_cases hu : st.useA <;> simp [snapOf, bufOf, demuxStep, hu]

theorem initDemux_inv (fs : Nat) : DemuxInv (initDemux fs) := by
  unfold DemuxInv initDemux
  dsimp only
  refine ⟨rfl, ?_, ?_, ?_⟩
  · intro k hk
    simp at hk
  · intro hne
    simp at hne
  · intro k hk
    simp at hk

theorem extractLoop_inv (fs : Nat) :
    ∀ fuel st, DemuxInv st → DemuxInv (extractLoop fs fuel st) := by
  intro fuel
  induction fuel with
  | zero =>
    intro st h
    exact h
  | succ n ih =>
    intro st h
    unfold extractLoop
    by_cases hc : 0 < fs ∧ fs ≤ st.acc.length
    · rw [if_pos hc]
      exact ih (demuxStep fs st) (demuxStep_inv fs st h)
    · rw [if_neg hc]
      exact h

theorem feedChunk_inv (fs : Nat) (st : DemuxState) (c : List Nat)
    (h : DemuxInv st) : DemuxInv (feedChunk fs st c) := by
  unfold feedChunk
  exact extractLoop_inv fs _ _ h

theorem feedChunks_inv (fs : Nat) (cs : List (List Nat)) :
    ∀ st, DemuxInv st → DemuxInv (feedChunks fs st cs) := by
  induction cs with
  | nil =>
    intro st h
    exact h
  | cons c cs ih =>
    intro st h
    have : feedChunks fs st (c :: cs) = feedChunks fs (feedChunk fs st c) cs := by
      unfold feedChunks
      simp
    rw [this]
    exact ih _ (feedChunk_inv fs st c h)

/-- C2: run from its initial state on any chunk sequence, the demuxer
publishes into the two fixed buffers alternately — publish k points at
buffer A exactly when k is even, so the buffer written for one publish
is never the buffer backing the previously published frame — and each
publish leaves the previous publish untouched: the snapshot the new
publish holds of the buffer backing its predecessor equals the
predecessor snapshot, so a published frame is not mutated before the
next frame is published. -/
theorem demuxer_double_buffering (fs : Nat) (cs : List (List Nat)) :
    (∀ k, (hk : k < (feedChunks fs (initDemux fs) cs).published.length) →
      ((feedChunks fs (initDemux fs) cs).published.get ⟨k, hk⟩).target
        = decide (k % 2 = 0)) ∧
    (∀ k, (hk : k + 1 < (feedChunks fs (initDemux fs) cs).published.length) →
      snapOf ((feedChunks fs (initDemux fs) cs).published.get ⟨k + 1, hk⟩)
          (((feedChunks fs (initDemux fs) cs).published.get
              ⟨k, Nat.lt_of_succ_lt hk⟩).target)
        = snapOf ((feedChunks fs (initDemux fs) cs).published.get
              ⟨k, Nat.lt_of_succ_lt hk⟩)
            (((feedChunks fs (initDemux fs) cs).published.get
                ⟨k, Nat.lt_of_succ_lt hk⟩).target)) := by
  have hInv := feedChunks_inv fs cs (initDemux fs) (initDemux_inv fs)
  obtain ⟨_h1, h2, _h3, h4⟩ := hInv
  exact ⟨h2, h4⟩

/-- Witness for C2: feeding two 4-byte frames in one chunk, the first
publish targets buffer A, the second buffer B, and the second publish
leaves the snapshot of buffer A intact. -/
theorem demuxer_double_buffering_witness :
    ((feedChunks 4 (initDemux 4) [[1, 2, 3, 4, 5, 6, 7, 8]]).published.get
        ⟨0, by decide⟩).target = decide (0 % 2 = 0) ∧
    ((feedChunks 4 (initDemux 4) [[1, 2, 3, 4, 5, 6, 7, 8]]).published.get
        ⟨1, by decide⟩).target = decide (1 % 2 = 0) ∧
    snapOf ((feedChunks 4 (initDemux 4) [[1, 2, 3, 4, 5, 6, 7, 8]]).published.get
          ⟨1, by decide⟩)
        (((feedChunks 4 (initDemux 4) [[1, 2, 3, 4, 5, 6, 7, 8]]).published.get
          ⟨0, by decide⟩).target)
      = snapOf ((feedChunks 4 (initDemux 4) [[1, 2, 3, 4, 5, 6, 7, 8]]).published.get
          ⟨0, by decide⟩)
        (((feedChunks 4 (initDemux 4) [[1, 2, 3, 4, 5, 6, 7, 8]]).published.get
          ⟨0, by decide⟩).target) :=
  ⟨(demuxer_double_buffering 4 [[1, 2, 3, 4, 5, 6, 7, 8]]).1 0 (by decide),
    (demuxer_double_buffering 4 [[1, 2, 3, 4, 5, 6, 7, 8]]).1 1 (by decide),
    (demuxer_double_buffering 4 [[1, 2, 3, 4, 5, 6, 7, 8]]).2 0 (by decide)⟩

/-! ### C5: stream end leaves the camera stopped with its last frame -/

theorem extractLoop_latest (fs : Nat) :
    ∀ fuel st, st.latest = st.published.getLast? →
      (extractLoop fs fuel st).latest
        = (extractLoop fs fuel st).published.getLast? := by
  intro fuel
  induction fuel with
  | zero =>
    intro st h
    exact h
  | succ n ih =>
    intro st h
    unfold extractLoop
    by_cases hc : 0 < fs ∧ fs ≤ st.acc.length
    · rw [if_pos hc]
      apply ih
      have hstep : (demuxStep fs st).published
          = st.published ++ [⟨st.useA,
              if st.useA then st.acc.take fs else st.bufA,
              if st.useA then st.bufB else st.acc.take fs⟩] := rfl
      rw [hstep, List.getLast?_concat]
      rfl
    · rw [if_neg hc]
      exact h

theorem extractLoop_prefix (fs : Nat) :
    ∀ fuel st, ∃ t, (extractLoop fs fuel st).published = st.published ++ t := by
  intro fuel
  induction fuel with
  | zero =>
    intro st
    exact ⟨[], by simp [extractLoop]⟩
  | succ n ih =>
    intro st
    unfold extractLoop
    by_cases hc : 0 < fs ∧ fs ≤ st.acc.length
    · rw [if_pos hc]
      obtain ⟨t, ht⟩ := ih (demuxStep fs st)
      have hstep : (demuxStep fs st).published
          = st.published ++ [⟨st.useA,
              if st.useA then st.acc.take fs else st.bufA,
              if st.useA then st.bufB else st.acc.take fs⟩] := rfl
      refine ⟨⟨st.useA,
          if st.useA then st.acc.take fs else st.bufA,
          if st.useA then st.bufB else st.acc.take fs⟩ :: t, ?_⟩
      rw [ht, hstep]
      simp
    · rw [if_neg hc]
      exact ⟨[], by simp⟩

theorem feedChunk_latest (fs : Nat) (st : DemuxState) (c : List Nat)
    (h : st.latest = st.published.getLast?) :
    (feedChunk fs st c).latest = (feedChunk fs st c).published.getLast? := by
  unfold feedChunk
  exact extractLoop_latest fs _ _ h

theorem feedChunk_prefix (fs : Nat) (st : DemuxState) (c : List Nat) :
    ∃ t, (feedChunk fs st c).published = st.published ++ t := by
  unfold feedChunk
  exact extractLoop_prefix fs _ _

theorem readBody_props (fs : Nat) :
    ∀ chunks (st : CamState) (ending : StreamEnd),
      (readBody fs st chunks ending).1.running = st.running ∧
      (st.dmx.latest = st.dmx.published.getLast? →
        (readBody fs st chunks ending).1.dmx.latest
          = (readBody fs st chunks ending).1.dmx.published.getLast?) ∧
      (∃ t, (readBody fs st chunks ending).1.dmx.published
        = st.dmx.published ++ t) := by
  intro chunks
  induction chunks with
  | nil =>
    intro st ending
    have h1 : (readBody fs st [] ending).1 = st := by
      unfold readBody
      by_cases hr : st.running
      · rw [if_pos hr]
        cases ending <;> rfl
      · rw [if_neg hr]
    rw [h1]
    exact ⟨rfl, fun h => h, ⟨[], by simp⟩⟩
  | cons c cs ih =>
    intro st ending
    unfold readBody
    by_cases hr : st.running
    · rw [if_pos hr]
      have hrec := ih { st with dmx := feedChunk fs st.dmx c } ending
      refine ⟨hrec.1, ?_, ?_⟩
      · intro hlat
        apply hrec.2.1
        dsimp only
        exact feedChunk_latest fs st.dmx c hlat
      · obtain ⟨t1, ht1⟩ := hrec.2.2
        obtain ⟨t2, ht2⟩ := feedChunk_prefix fs st.dmx c
        refine ⟨t2 ++ t1, ?_⟩
        rw [ht1]
        dsimp only
        rw [ht2, List.append_assoc]
    · rw [if_neg hr]
      exact ⟨rfl, fun h => h, ⟨[], by simp⟩⟩

/-- C5: when the capture byte stream ends or errors, the read loop
exits without raising (the stream exception is swallowed by the catch
block), isRunning is false from then on, getFrame still returns the
most recently decoded frame, and once at least one frame has been
published getFrame never reverts to none. -/
theorem stream_end_keeps_last_frame (fs : Nat) (st : CamState)
    (chunks : List (List Nat)) (ending : StreamEnd)
    (hlat : st.dmx.latest = st.dmx.published.getLast?) :
    isRunning (readFrames fs st chunks ending) = false ∧
    (readFrames fs st chunks ending).dmx.latest
      = (readFrames fs st chunks ending).dmx.published.getLast? ∧
    (∃ t, (readFrames fs st chunks ending).dmx.published
      = st.dmx.published ++ t) ∧
    ((getFrame st).isSome → (getFrame (readFrames fs st chunks ending)).isSome) := by
  have hprops := readBody_props fs chunks st ending
  refine ⟨?_, ?_, ?_, ?_⟩
  · unfold isRunning readFrames
    simp
  · unfold readFrames
    dsimp only
    exact hprops.2.1 hlat
  · unfold readFrames
    dsimp only
    exact hprops.2.2
  · intro hsome
    unfold getFrame readFrames
    dsimp only
    unfold getFrame at hsome
    rw [hlat] at hsome
    have hne : st.dmx.published ≠ [] := by
      intro hnil
      rw [hnil] at hsome
      simp at hsome
    obtain ⟨t, ht⟩ := hprops.2.2
    rw [hprops.2.1 hlat, ht]
    rw [Option.isSome_iff_ne_none]
    intro hnone
    rw [List.getLast?_eq_none_iff] at hnone
    exact hne (by
      have := List.append_eq_nil.mp hnone
      exact this.1)

/-- Witness for C5: a camera that already published one frame, fed one
further partial chunk before the stream errors, stops running and still
has a frame. -/
theorem stream_end_keeps_last_frame_witness :
    isRunning (readFrames 4
      ⟨true, false, ⟨[9, 9, 9, 9], [0, 0, 0, 0], false, [], some ⟨true, [9, 9, 9, 9], [0, 0, 0, 0]⟩, [⟨true, [9, 9, 9, 9], [0, 0, 0, 0]⟩]⟩⟩
      [[1, 2]] StreamEnd.errored) = false ∧
    (getFrame (readFrames 4
      ⟨true, false, ⟨[9, 9, 9, 9], [0, 0, 0, 0], false, [], some ⟨true, [9, 9, 9, 9], [0, 0, 0, 0]⟩, [⟨true, [9, 9, 9, 9], [0, 0, 0, 0]⟩]⟩⟩
      [[1, 2]] StreamEnd.errored)).isSome :=
  ⟨(stream_end_keeps_last_frame 4
      ⟨true, false, ⟨[9, 9, 9, 9], [0, 0, 0, 0], false, [], some ⟨true, [9, 9, 9, 9], [0, 0, 0, 0]⟩, [⟨true, [9, 9, 9, 9], [0, 0, 0, 0]⟩]⟩⟩
      [[1, 2]] StreamEnd.errored (by decide)).1,
    (stream_end_keeps_last_frame 4
      ⟨true, false, ⟨[9, 9, 9, 9], [0, 0, 0, 0], false, [], some ⟨true, [9, 9, 9, 9], [0, 0, 0, 0]⟩, [⟨true, [9, 9, 9, 9], [0, 0, 0, 0]⟩]⟩⟩
      [[1, 2]] StreamEnd.errored (by decide)).2.2.2 (by decide)⟩

/-- Witness for C3: a tick arriving with the guard set is a no-op, and
a tick that runs a throwing Transform Stage still ends with the guard
cleared. -/
theorem tick_single_flight_witness :
    tick ⟨true, false, -1, 0, 0, 0, 0⟩ none errTransform 0 0
      = (⟨true, false, -1, 0, 0, 0, 0⟩, ⟨false, false, false⟩) ∧
    (tick ⟨false, false, -1, 0, 0, 0, 0⟩ (some ⟨1, 1, [0, 0, 0, 0], 5⟩)
      errTransform 0 0).1.processing = false := by
  exact ⟨(tick_single_flight _ _ _ _ _).1 rfl, (tick_single_flight _ _ _ _ _).2 rfl⟩
